import Mathlib

/-!
Formal model of the Firestore remote-write core: the `BufferedWriter`
write-flow-control state machine (spec §4.1) and the call-lifecycle
contract of `GrpcCallInterface` (spec §4.2).  Operations are abstract
values of a type `α`; the side effects the core performs on them are
recorded as an explicit action trace.
-/

/-- Modelled from the spec: the behaviors of a `GrpcOperation`
(`buffered_writer.h` with the `GrpcOperation` base is not among the visible
sources).  An operation exposes exactly two behaviors: `start` (called
`Execute` in the test file) and the completion callback `complete ok`
(`Complete(bool ok)`).  A trace of the core's side effects is a list of
these actions. -/
inductive OpAction (α : Type) where
  | start (op : α)
  | complete (op : α) (ok : Bool)
deriving DecidableEq

/-- Modelled from the spec: the state of a `BufferedWriter`
(`buffered_writer.h`/`.cc` are not among the visible sources): "owns an
ordered sequence of not-yet-started Operations (the pending buffer) and a
single boolean flag, write in flight". -/
structure BufferedWriter (α : Type) where
  has_active_write : Bool
  buffer : List α
deriving DecidableEq

/-- The initial state: `Idle`, empty pending buffer. -/
def BufferedWriter.initial {α : Type} : BufferedWriter α :=
  ⟨false, []⟩

/-- Modelled from the spec: `EnqueueWrite(op)` — "if state is Idle,
transition to Busy and call `op.start()` synchronously before returning;
if state is Busy, append `op` to the tail of the pending buffer and return
without starting it".  Returns the new state together with the `start`
actions performed during the call. -/
def EnqueueWrite {α : Type} (w : BufferedWriter α) (op : α) :
    BufferedWriter α × List (OpAction α) :=
  if w.has_active_write then
    (⟨true, w.buffer ++ [op]⟩, [])
  else
    (⟨true, w.buffer⟩, [OpAction.start op])

/-- Modelled from the spec: `DequeueNextWrite()` — "if the pending buffer is
non-empty, remove its head Operation and call `start()` on it, remaining in
Busy; if the pending buffer is empty, transition to Idle"; on an empty
buffer it is a no-op that must not crash or start anything. -/
def DequeueNextWrite {α : Type} (w : BufferedWriter α) :
    BufferedWriter α × List (OpAction α) :=
  match w.buffer with
  | [] => (⟨false, []⟩, [])
  | op :: rest => (⟨true, rest⟩, [OpAction.start op])

/-- A call of the `BufferedWriter` public interface. -/
inductive WriterCall (α : Type) where
  | enqueueWrite (op : α)
  | dequeueNextWrite
deriving DecidableEq

/-- Dispatch one interface call on the current state. -/
def writerStep {α : Type} (w : BufferedWriter α) :
    WriterCall α → BufferedWriter α × List (OpAction α)
  | WriterCall.enqueueWrite op => EnqueueWrite w op
  | WriterCall.dequeueNextWrite => DequeueNextWrite w

/-- Run a sequence of interface calls from a given state, collecting the
actions the writer performs, in order. -/
def runFrom {α : Type} (w : BufferedWriter α) :
    List (WriterCall α) → BufferedWriter α × List (OpAction α)
  | [] => (w, [])
  | c :: cs =>
    ((runFrom (writerStep w c).1 cs).1,
      (writerStep w c).2 ++ (runFrom (writerStep w c).1 cs).2)

/-- Run a sequence of interface calls from the initial (`Idle`) state. -/
def run {α : Type} (calls : List (WriterCall α)) :
    BufferedWriter α × List (OpAction α) :=
  runFrom BufferedWriter.initial calls

/-- The operations submitted by a call sequence, in submission order. -/
def enqueuedOps {α : Type} : List (WriterCall α) → List α
  | [] => []
  | WriterCall.enqueueWrite op :: cs => op :: enqueuedOps cs
  | WriterCall.dequeueNextWrite :: cs => enqueuedOps cs

/-- How many `DequeueNextWrite` calls a call sequence contains. -/
def numDequeues {α : Type} : List (WriterCall α) → Nat
  | [] => 0
  | WriterCall.enqueueWrite _ :: cs => numDequeues cs
  | WriterCall.dequeueNextWrite :: cs => numDequeues cs + 1

/-- The operations started in an action trace, in order. -/
def startedOps {α : Type} (acts : List (OpAction α)) : List α :=
  acts.filterMap fun a =>
    match a with
    | OpAction.start op => some op
    | OpAction.complete _ _ => none

/-- The operations whose completion callback is invoked in an action trace. -/
def completedOps {α : Type} (acts : List (OpAction α)) : List α :=
  acts.filterMap fun a =>
    match a with
    | OpAction.start _ => none
    | OpAction.complete op _ => some op

/-- Whether an action is a `start`. -/
def isStart {α : Type} : OpAction α → Bool
  | OpAction.start _ => true
  | OpAction.complete _ _ => false

/-- How many completion notifications the writer processes while running a
call sequence: a `DequeueNextWrite` call processes the completion of the
in-flight operation exactly when the writer is `Busy`. -/
def runFromProcessed {α : Type} (w : BufferedWriter α) :
    List (WriterCall α) → Nat
  | [] => 0
  | WriterCall.enqueueWrite op :: cs => runFromProcessed (EnqueueWrite w op).1 cs
  | WriterCall.dequeueNextWrite :: cs =>
    (if w.has_active_write then 1 else 0) + runFromProcessed (DequeueNextWrite w).1 cs

/-- Completion notifications processed from the initial state. -/
def runProcessed {α : Type} (calls : List (WriterCall α)) : Nat :=
  runFromProcessed BufferedWriter.initial calls

/-- The state invariant: an `Idle` writer has an empty pending buffer. -/
def BufferedWriter.Inv {α : Type} (w : BufferedWriter α) : Prop :=
  w.has_active_write = false → w.buffer = []

/-- Modelled from the spec: the external transport's completion notifier
(out of scope for the core) delivers `onComplete(ok)` "later and exactly
once per started Operation" (§6). -/
def transportCompletions {α : Type} (started : List α) (ok : Bool) :
    List (OpAction α) :=
  started.map fun op => OpAction.complete op ok

/-- Modelled from the spec: the behavior clauses of §4.1 written as a
transition relation, used to state that the interface accepts every call
unconditionally (totality) and signals no error (exactly one outcome). -/
inductive WriterStepRel {α : Type} :
    BufferedWriter α → WriterCall α → BufferedWriter α → List (OpAction α) → Prop where
  | enqueue_idle (w : BufferedWriter α) (op : α) (h : w.has_active_write = false) :
      WriterStepRel w (WriterCall.enqueueWrite op) ⟨true, w.buffer⟩ [OpAction.start op]
  | enqueue_busy (w : BufferedWriter α) (op : α) (h : w.has_active_write = true) :
      WriterStepRel w (WriterCall.enqueueWrite op) ⟨true, w.buffer ++ [op]⟩ []
  | dequeue_empty (w : BufferedWriter α) (h : w.buffer = []) :
      WriterStepRel w WriterCall.dequeueNextWrite ⟨false, []⟩ []
  | dequeue_head (w : BufferedWriter α) (op : α) (rest : List α) (h : w.buffer = op :: rest) :
      WriterStepRel w WriterCall.dequeueNextWrite ⟨true, rest⟩ [OpAction.start op]

/-- Modelled from the spec: the error status carried by `FinishWithError` —
"kind + message, defined by the collaborating transport/error model"
(`util/status.h` is not among the visible sources; the core treats the
value as opaque). -/
structure Status where
  kind : Nat
  message : String
deriving DecidableEq

/-- Modelled from the spec: one notification delivered to one registered
callback/observer, carrying the error status. -/
structure Notification (ω : Type) where
  target : ω
  status : Status
deriving DecidableEq

/-- Modelled from the spec: the call handle behind `GrpcCallInterface`
(only the pure-virtual interface is among the visible sources): a set of
registered callbacks/observers and whether the call has been finished. -/
structure GrpcCall (ω : Type) where
  observers : List ω
  finished : Bool
deriving DecidableEq

/-- Modelled from the spec: `Finish()` "finishes the call gracefully;
doesn't produce a notification to any callbacks or observers".  Returns the
new call state and the notifications emitted. -/
def Finish {ω : Type} (c : GrpcCall ω) : GrpcCall ω × List (Notification ω) :=
  (⟨c.observers, true⟩, [])

/-- Modelled from the spec: `FinishWithError(status)` "finishes the call
with an error, notifying any callbacks and observers", passing the given
status through unmodified. -/
def FinishWithError {ω : Type} (c : GrpcCall ω) (status : Status) :
    GrpcCall ω × List (Notification ω) :=
  (⟨c.observers, true⟩, c.observers.map fun o => ⟨o, status⟩)

/-- The test fixture's counter (`writes_count` in `buffered_writer_test.cc`):
it is incremented once per executed `TestOperation`.  An enqueued argument
is `some n` when it is an actual operation holding the counter pointer and
`none` when it is the value-initialized argument `{}`, which constructs no
`TestOperation` and can increment nothing. -/
def writes_count (started : List (Option Nat)) : Nat :=
  (started.filterMap id).length

lemma startedOps_append {α : Type} (a b : List (OpAction α)) :
    startedOps (a ++ b) = startedOps a ++ startedOps b := by
  simp [startedOps]

lemma startedOps_nil {α : Type} : startedOps ([] : List (OpAction α)) = [] :=
  rfl

lemma startedOps_single {α : Type} (op : α) :
    startedOps [OpAction.start op] = [op] :=
  rfl

lemma runFrom_enqueue_busy {α : Type} (w : BufferedWriter α) (op : α)
    (cs : List (WriterCall α)) (hb : w.has_active_write = true) :
    runFrom w (WriterCall.enqueueWrite op :: cs)
      = ((runFrom ⟨true, w.buffer ++ [op]⟩ cs).1,
          [] ++ (runFrom ⟨true, w.buffer ++ [op]⟩ cs).2) := by
  simp [runFrom, writerStep, EnqueueWrite, hb]

lemma runFrom_enqueue_idle {α : Type} (w : BufferedWriter α) (op : α)
    (cs : List (WriterCall α)) (hb : w.has_active_write = false) :
    runFrom w (WriterCall.enqueueWrite op :: cs)
      = ((runFrom ⟨true, w.buffer⟩ cs).1,
          [OpAction.start op] ++ (runFrom ⟨true, w.buffer⟩ cs).2) := by
  simp [runFrom, writerStep, EnqueueWrite, hb]

lemma runFrom_dequeue_empty {α : Type} (w : BufferedWriter α)
    (cs : List (WriterCall α)) (hbuf : w.buffer = []) :
    runFrom w (WriterCall.dequeueNextWrite :: cs)
      = ((runFrom ⟨false, []⟩ cs).1, [] ++ (runFrom ⟨false, []⟩ cs).2) := by
  simp [runFrom, writerStep, DequeueNextWrite, hbuf]

lemma runFrom_dequeue_head {α : Type} (w : BufferedWriter α) (op : α)
    (rest : List α) (cs : List (WriterCall α)) (hbuf : w.buffer = op :: rest) :
    runFrom w (WriterCall.dequeueNextWrite :: cs)
      = ((runFrom ⟨true, rest⟩ cs).1,
          [OpAction.start op] ++ (runFrom ⟨true, rest⟩ cs).2) := by
  simp [runFrom, writerStep, DequeueNextWrite, hbuf]

/-- Conservation: running any call sequence from a state satisfying the
invariant, the operations started (in order) followed by the final pending
buffer are exactly the initial buffer followed by the submitted operations,
and the invariant is preserved. -/
lemma runFrom_buffer_eq {α : Type} (calls : List (WriterCall α)) :
    ∀ w : BufferedWriter α, w.Inv →
      startedOps (runFrom w calls).2 ++ (runFrom w calls).1.buffer
          = w.buffer ++ enqueuedOps calls
        ∧ (runFrom w calls).1.Inv := by
  induction calls with
  | nil =>
    intro w hw
    exact ⟨by simp [runFrom, startedOps, enqueuedOps], hw⟩
  | cons c cs ih =>
    intro w hw
    cases c with
    | enqueueWrite op =>
      by_cases hb : w.has_active_write
      · have ih2 := ih ⟨true, w.buffer ++ [op]⟩ (by intro h; cases h)
        rw [runFrom_enqueue_busy w op cs hb]
        refine ⟨?_, ih2.2⟩
        simp only [List.nil_append, enqueuedOps]
        rw [ih2.1]
        simp [List.append_assoc]
      · have hbuf : w.buffer = [] := hw (by simpa using hb)
        have ih2 := ih ⟨true, w.buffer⟩ (by intro h; cases h)
        rw [runFrom_enqueue_idle w op cs (by simpa using hb)]
        refine ⟨?_, ih2.2⟩
        simp only [startedOps_append, startedOps_single, enqueuedOps]
        rw [List.append_assoc, ih2.1, hbuf]
        simp
    | dequeueNextWrite =>
      cases hbuf : w.buffer with
      | nil =>
        have ih2 := ih ⟨false, []⟩ (by intro _; rfl)
        rw [runFrom_dequeue_empty w cs hbuf]
        refine ⟨?_, ih2.2⟩
        simp only [List.nil_append, enqueuedOps, hbuf]
        simpa using ih2.1
      | cons op rest =>
        have ih2 := ih ⟨true, rest⟩ (by intro h; cases h)
        rw [runFrom_dequeue_head w op rest cs hbuf]
        refine ⟨?_, ih2.2⟩
        simp only [startedOps_append, startedOps_single, enqueuedOps, hbuf]
        rw [List.append_assoc, ih2.1]
        simp

/-- Upper bound on starts: every start after the first requires one
`DequeueNextWrite` call, and a `Busy` writer gets no free start at all. -/
lemma runFrom_starts_le {α : Type} (calls : List (WriterCall α)) :
    ∀ w : BufferedWriter α,
      (startedOps (runFrom w calls).2).length
        ≤ numDequeues calls + (if w.has_active_write then 0 else 1) := by
  induction calls with
  | nil => intro w; simp [runFrom, startedOps]
  | cons c cs ih =>
    intro w
    cases c with
    | enqueueWrite op =>
      by_cases hb : w.has_active_write
      · have ih2 := ih ⟨true, w.buffer ++ [op]⟩
        simp only [runFrom_enqueue_busy w op cs hb, List.nil_append, numDequeues, hb]
        simpa using ih2
      · have ih2 := ih ⟨true, w.buffer⟩
        simp only [runFrom_enqueue_idle w op cs (by simpa using hb), startedOps_append,
          startedOps_single, List.length_append, numDequeues]
        simp only [if_neg hb]
        simp only [List.length_singleton]
        simp at ih2
        omega
    | dequeueNextWrite =>
      cases hbuf : w.buffer with
      | nil =>
        have ih2 := ih ⟨false, []⟩
        simp only [runFrom_dequeue_empty w cs hbuf, List.nil_append, numDequeues]
        simp at ih2
        split <;> omega
      | cons op rest =>
        have ih2 := ih ⟨true, rest⟩
        simp only [runFrom_dequeue_head w op rest cs hbuf, startedOps_append,
          startedOps_single, List.length_append, numDequeues, List.length_singleton]
        simp at ih2
        split <;> omega

/-- Flow accounting: operations in flight when the run begins, plus starts
performed, equals completions processed plus operations in flight at the
end.  Since the in-flight count is the boolean flag, at every reachable
instant at most one operation is in flight. -/
lemma runFrom_flow {α : Type} (calls : List (WriterCall α)) :
    ∀ w : BufferedWriter α,
      (startedOps (runFrom w calls).2).length + (if w.has_active_write then 1 else 0)
        = runFromProcessed w calls
            + (if (runFrom w calls).1.has_active_write then 1 else 0) := by
  induction calls with
  | nil => intro w; simp [runFrom, runFromProcessed, startedOps]
  | cons c cs ih =>
    intro w
    cases c with
    | enqueueWrite op =>
      by_cases hb : w.has_active_write
      · have ih2 := ih ⟨true, w.buffer ++ [op]⟩
        have hp : runFromProcessed w (WriterCall.enqueueWrite op :: cs)
            = runFromProcessed ⟨true, w.buffer ++ [op]⟩ cs := by
          simp [runFromProcessed, EnqueueWrite, hb]
        simp only [runFrom_enqueue_busy w op cs hb, List.nil_append, hp, hb]
        simpa using ih2
      · have ih2 := ih ⟨true, w.buffer⟩
        have hp : runFromProcessed w (WriterCall.enqueueWrite op :: cs)
            = runFromProcessed ⟨true, w.buffer⟩ cs := by
          simp [runFromProcessed, EnqueueWrite, hb]
        simp only [runFrom_enqueue_idle w op cs (by simpa using hb), startedOps_append,
          startedOps_single, List.length_append, List.length_singleton, hp]
        simp only [if_neg hb]
        simp at ih2
        omega
    | dequeueNextWrite =>
      cases hbuf : w.buffer with
      | nil =>
        have ih2 := ih ⟨false, []⟩
        have hp : runFromProcessed w (WriterCall.dequeueNextWrite :: cs)
            = (if w.has_active_write then 1 else 0)
                + runFromProcessed ⟨false, []⟩ cs := by
          simp [runFromProcessed, DequeueNextWrite, hbuf]
        simp only [runFrom_dequeue_empty w cs hbuf, List.nil_append, hp]
        simp at ih2
        split <;> omega
      | cons op rest =>
        have ih2 := ih ⟨true, rest⟩
        have hp : runFromProcessed w (WriterCall.dequeueNextWrite :: cs)
            = (if w.has_active_write then 1 else 0)
                + runFromProcessed ⟨true, rest⟩ cs := by
          simp [runFromProcessed, DequeueNextWrite, hbuf]
        simp only [runFrom_dequeue_head w op rest cs hbuf, startedOps_append,
          startedOps_single, List.length_append, List.length_singleton, hp]
        simp at ih2
        split <;> omega

/-- Every action the writer emits, in any run, is a `start`. -/
lemma runFrom_all_isStart {α : Type} (calls : List (WriterCall α)) :
    ∀ w : BufferedWriter α, ((runFrom w calls).2.all isStart) = true := by
  induction calls with
  | nil => intro w; simp [runFrom]
  | cons c cs ih =>
    intro w
    cases c with
    | enqueueWrite op =>
      by_cases hb : w.has_active_write
      · simp only [runFrom_enqueue_busy w op cs hb, List.nil_append]
        exact ih _
      · simp only [runFrom_enqueue_idle w op cs (by simpa using hb)]
        simp only [List.all_append, List.all_cons, List.all_nil, isStart]
        simpa using ih _
    | dequeueNextWrite =>
      cases hbuf : w.buffer with
      | nil =>
        simp only [runFrom_dequeue_empty w cs hbuf, List.nil_append]
        exact ih _
      | cons op rest =>
        simp only [runFrom_dequeue_head w op rest cs hbuf]
        simp only [List.all_append, List.all_cons, List.all_nil, isStart]
        simpa using ih _

lemma completedOps_eq_nil {α : Type} (l : List (OpAction α))
    (h : l.all isStart = true) : completedOps l = [] := by
  induction l with
  | nil => rfl
  | cons a l ih =>
    rw [List.all_cons, Bool.and_eq_true] at h
    cases a with
    | start op =>
      simp only [completedOps, List.filterMap_cons] at ih ⊢
      exact ih h.2
    | complete op ok => simp [isStart] at h

/-- C1: the Operations a `BufferedWriter` starts are exactly an initial
segment of the submitted Operations, in submission order — so starts are
strictly FIFO, nothing is skipped or started twice, and whatever was not
started is still in the pending buffer in order; moreover the Nth start
requires the previous completion to have been processed: the number of
starts never exceeds one more than the number of `DequeueNextWrite` calls. -/
theorem buffered_writer_fifo_exactly_once {α : Type} (calls : List (WriterCall α)) :
    startedOps (run calls).2 ++ (run calls).1.buffer = enqueuedOps calls
    ∧ startedOps (run calls).2 <+: enqueuedOps calls
    ∧ (startedOps (run calls).2).length
        ≤ min (enqueuedOps calls).length (1 + numDequeues calls) := by
  simp only [run]
  have h := (runFrom_buffer_eq calls BufferedWriter.initial (fun _ => rfl)).1
  have hle := runFrom_starts_le calls BufferedWriter.initial
  have hinit : (BufferedWriter.initial : BufferedWriter α).buffer = [] := rfl
  rw [hinit, List.nil_append] at h
  refine ⟨h, ⟨(runFrom BufferedWriter.initial calls).1.buffer, h⟩, ?_⟩
  have hlen := congrArg List.length h
  simp only [List.length_append] at hlen
  have hflag :
      (if (BufferedWriter.initial : BufferedWriter α).has_active_write
        then 0 else 1) = 1 := rfl
  rw [hflag] at hle
  exact le_min (by omega) (by omega)

/-- C3: at most one Operation is ever in flight: in every reachable state
the starts performed equal the completions processed plus the in-flight
flag (0 or 1); `EnqueueWrite` performs exactly one synchronous `start` when
the writer is `Idle` and zero when it is `Busy`, and `DequeueNextWrite`
performs at most one `start`. -/
theorem buffered_writer_single_flight {α : Type} (calls : List (WriterCall α)) :
    (startedOps (run calls).2).length
        = runProcessed calls + (if (run calls).1.has_active_write then 1 else 0)
    ∧ (∀ (w : BufferedWriter α) (op : α),
        ((EnqueueWrite w op).2).length = if w.has_active_write then 0 else 1)
    ∧ ∀ w : BufferedWriter α, ((DequeueNextWrite w).2).length ≤ 1 := by
  refine ⟨?_, ?_, ?_⟩
  · have h := runFrom_flow calls BufferedWriter.initial
    simpa [run, runProcessed, BufferedWriter.initial] using h
  · intro w op
    by_cases hb : w.has_active_write <;> simp [EnqueueWrite, hb]
  · intro w
    cases hbuf : w.buffer <;> simp [DequeueNextWrite, hbuf]

/-- C4: `DequeueNextWrite` on an empty pending buffer starts nothing, leaves
the buffer empty, moves the writer to `Idle` (also from `Busy`), and is
idempotent: a second call returns the same `Idle` state and starts nothing. -/
theorem dequeue_on_empty_noop {α : Type} (w : BufferedWriter α)
    (h : w.buffer = []) :
    (DequeueNextWrite w).2 = []
    ∧ (DequeueNextWrite w).1.has_active_write = false
    ∧ (DequeueNextWrite w).1.buffer = []
    ∧ DequeueNextWrite (DequeueNextWrite w).1 = ((DequeueNextWrite w).1, []) := by
  simp [DequeueNextWrite, h]

theorem dequeue_on_empty_noop_witness :
    (DequeueNextWrite (⟨true, []⟩ : BufferedWriter Nat)).2 = []
    ∧ (DequeueNextWrite (⟨true, []⟩ : BufferedWriter Nat)).1.has_active_write = false
    ∧ (DequeueNextWrite (⟨true, []⟩ : BufferedWriter Nat)).1.buffer = []
    ∧ DequeueNextWrite (DequeueNextWrite (⟨true, []⟩ : BufferedWriter Nat)).1
        = ((DequeueNextWrite (⟨true, []⟩ : BufferedWriter Nat)).1, []) :=
  dequeue_on_empty_noop (⟨true, []⟩ : BufferedWriter Nat) rfl

/-- C5: `Finish` ends the call and emits no notification to any registered
callback or observer, whatever the call state. -/
theorem finish_no_notifications {ω : Type} (c : GrpcCall ω) :
    (Finish c).2 = [] ∧ (Finish c).1.finished = true
    ∧ (Finish c).1.observers = c.observers :=
  ⟨rfl, rfl, rfl⟩

lemma map_notification_target {ω : Type} (l : List ω) (status : Status) :
    (l.map fun o => (⟨o, status⟩ : Notification ω)).map Notification.target = l := by
  induction l with
  | nil => rfl
  | cons a l ih => simp only [List.map_cons]; rw [ih]

lemma map_notification_status {ω : Type} (l : List ω) (status : Status) :
    (l.map fun o => (⟨o, status⟩ : Notification ω)).map Notification.status
      = List.replicate l.length status := by
  induction l with
  | nil => rfl
  | cons a l ih =>
    simp only [List.map_cons, List.length_cons, List.replicate_succ]
    rw [ih]

lemma transport_completedOps {α : Type} (s : List α) (ok : Bool) :
    completedOps (transportCompletions s ok) = s := by
  induction s with
  | nil => rfl
  | cons a s ih =>
    simp only [transportCompletions, List.map_cons, completedOps,
      List.filterMap_cons] at ih ⊢
    rw [ih]

/-- C6: `FinishWithError` ends the call and notifies every registered
observer exactly once, and each notification carries exactly the status
that was passed in, unmodified. -/
theorem finish_with_error_notifies {ω : Type} (c : GrpcCall ω) (status : Status) :
    (FinishWithError c status).1.finished = true
    ∧ (FinishWithError c status).2.map Notification.target = c.observers
    ∧ (FinishWithError c status).2.map Notification.status
        = List.replicate c.observers.length status := by
  exact ⟨rfl, map_notification_target c.observers status,
    map_notification_status c.observers status⟩

/-- C7: the writer's interface cannot fail: from any state, `EnqueueWrite`
and `DequeueNextWrite` each have exactly one outcome under the behavioral
transition relation (they accept every call unconditionally and signal no
error), and that outcome is the one the step function computes. -/
theorem writer_calls_total {α : Type} (w : BufferedWriter α) (c : WriterCall α) :
    WriterStepRel w c (writerStep w c).1 (writerStep w c).2
    ∧ ∀ (w2 : BufferedWriter α) (outs : List (OpAction α)),
        WriterStepRel w c w2 outs
          → w2 = (writerStep w c).1 ∧ outs = (writerStep w c).2 := by
  constructor
  · cases c with
    | enqueueWrite op =>
      by_cases hb : w.has_active_write
      · have hs : writerStep w (WriterCall.enqueueWrite op)
            = (⟨true, w.buffer ++ [op]⟩, []) := by
          simp [writerStep, EnqueueWrite, hb]
        rw [hs]
        exact WriterStepRel.enqueue_busy w op hb
      · have hb2 : w.has_active_write = false := by simpa using hb
        have hs : writerStep w (WriterCall.enqueueWrite op)
            = (⟨true, w.buffer⟩, [OpAction.start op]) := by
          simp [writerStep, EnqueueWrite, hb2]
        rw [hs]
        exact WriterStepRel.enqueue_idle w op hb2
    | dequeueNextWrite =>
      cases hbuf : w.buffer with
      | nil =>
        have hs : writerStep w WriterCall.dequeueNextWrite = (⟨false, []⟩, []) := by
          simp [writerStep, DequeueNextWrite, hbuf]
        rw [hs]
        exact WriterStepRel.dequeue_empty w hbuf
      | cons op rest =>
        have hs : writerStep w WriterCall.dequeueNextWrite
            = (⟨true, rest⟩, [OpAction.start op]) := by
          simp [writerStep, DequeueNextWrite, hbuf]
        rw [hs]
        exact WriterStepRel.dequeue_head w op rest hbuf
  · intro w2 outs hstep
    cases hstep with
    | enqueue_idle op h => refine ⟨?_, ?_⟩ <;> simp [writerStep, EnqueueWrite, h]
    | enqueue_busy op h => refine ⟨?_, ?_⟩ <;> simp [writerStep, EnqueueWrite, h]
    | dequeue_empty h => refine ⟨?_, ?_⟩ <;> simp [writerStep, DequeueNextWrite, h]
    | dequeue_head op rest h =>
      refine ⟨?_, ?_⟩ <;> simp [writerStep, DequeueNextWrite, h]

theorem writer_calls_total_witness :
    ((writerStep (BufferedWriter.initial : BufferedWriter Nat)
        WriterCall.dequeueNextWrite).1 = (⟨false, []⟩ : BufferedWriter Nat))
    ∧ (writerStep (BufferedWriter.initial : BufferedWriter Nat)
        WriterCall.dequeueNextWrite).2 = [] := by
  have h := writer_calls_total (BufferedWriter.initial : BufferedWriter Nat)
    WriterCall.dequeueNextWrite
  have h2 := h.2 ⟨false, []⟩ [] (WriterStepRel.dequeue_empty BufferedWriter.initial rfl)
  exact ⟨h2.1.symm, h2.2.symm⟩

/-- C8: the core invokes only `start` on Operations: every action a run of
the writer emits is a `start` and none is a completion callback; the
completion callbacks come from the modelled external transport notifier,
which delivers exactly one `onComplete` per started Operation, in order. -/
theorem core_only_starts {α : Type} (calls : List (WriterCall α)) :
    ((run calls).2.all isStart) = true
    ∧ completedOps (run calls).2 = []
    ∧ ∀ ok : Bool,
        completedOps (transportCompletions (startedOps (run calls).2) ok)
          = startedOps (run calls).2 := by
  refine ⟨runFrom_all_isStart calls BufferedWriter.initial, ?_, ?_⟩
  · exact completedOps_eq_nil _ (runFrom_all_isStart calls BufferedWriter.initial)
  · intro ok
    exact transport_completedOps (startedOps (run calls).2) ok

/-- C9: an Operation the writer has started is no longer referenced by the
writer: as long as the submitted operations are pairwise distinct, no
started operation remains in the pending buffer after any call sequence. -/
theorem started_not_retained {α : Type} (calls : List (WriterCall α))
    (h : (enqueuedOps calls).Nodup) :
    ∀ op, op ∈ startedOps (run calls).2 → op ∉ (run calls).1.buffer := by
  simp only [run]
  have heq := (runFrom_buffer_eq calls BufferedWriter.initial (fun _ => rfl)).1
  have hinit : (BufferedWriter.initial : BufferedWriter α).buffer = [] := rfl
  rw [hinit, List.nil_append] at heq
  intro op hs hb
  rw [← heq, List.nodup_append] at h
  exact h.2.2 hs hb

theorem started_not_retained_witness :
    (1 : Nat) ∉ (run [WriterCall.enqueueWrite (1 : Nat),
        WriterCall.enqueueWrite 2]).1.buffer :=
  started_not_retained [WriterCall.enqueueWrite 1, WriterCall.enqueueWrite 2]
    (by decide) 1 (by decide)

/-- C2: the spec's concrete scenario holds on the model — one genuine
operation enqueued while idle is started at once (the test counter becomes
1 and the buffer drains to empty), three enqueues leave the counter at 1,
and each of the next two dequeues raises it by one while a third leaves it
at 3 — but at the input the test `CanDoImmediateWrites` actually uses,
`EnqueueWrite({})`, the enqueued argument constructs no `TestOperation`
(it is `none`), so the counter the test asserts to be 1 stays 0. -/
theorem immediate_write_test_slip :
    writes_count (startedOps
        (run [WriterCall.enqueueWrite (none : Option Nat)]).2) = 0
    ∧ writes_count (startedOps
        (run [WriterCall.enqueueWrite (some 1)]).2) = 1
    ∧ (run [WriterCall.enqueueWrite (some 1)]).1.buffer = []
    ∧ writes_count (startedOps
        (run [WriterCall.enqueueWrite (some 1), WriterCall.enqueueWrite (some 2),
          WriterCall.enqueueWrite (some 3)]).2) = 1
    ∧ writes_count (startedOps
        (run [WriterCall.enqueueWrite (some 1), WriterCall.enqueueWrite (some 2),
          WriterCall.enqueueWrite (some 3), WriterCall.dequeueNextWrite]).2) = 2
    ∧ writes_count (startedOps
        (run [WriterCall.enqueueWrite (some 1), WriterCall.enqueueWrite (some 2),
          WriterCall.enqueueWrite (some 3), WriterCall.dequeueNextWrite,
          WriterCall.dequeueNextWrite]).2) = 3
    ∧ writes_count (startedOps
        (run [WriterCall.enqueueWrite (some 1), WriterCall.enqueueWrite (some 2),
          WriterCall.enqueueWrite (some 3), WriterCall.dequeueNextWrite,
          WriterCall.dequeueNextWrite, WriterCall.dequeueNextWrite]).2) = 3 := by
  decide

